import Mathlib

/-!
Shallow embedding of the code-backup-tool synchronization engine
(`src/classes/BackupManager.py`) and verification of its specification.

Paths are modelled as lists of components relative to the backup roots
(the `backup-src` / `backup-dest` prefixes are constant string joins in
the source, so path mapping is the identity at the relative level).
Modification times are naturals; file contents are naturals.
-/

namespace BackupTool

/-- A relative filesystem path, as a list of components. -/
abbrev Path := List String

/-- Data carried by a file: its modification time and contents.
`shutil.copy2` copies both. -/
structure FileData where
  mtime : Nat
  content : Nat
deriving DecidableEq

/-- A source file as seen by the scan: `os.path.splitext` splits its
name into a base part and an extension (with leading dot). -/
structure FileEntry where
  base : String
  ext : String
  data : FileData
deriving DecidableEq

/-- The configuration record after `validate_config` succeeded
(fields of `BackupManager`). -/
structure Config where
  backup_src_path : String
  backup_dest_path : String
  folder_exclusions : List String
  filename_exclusions : List String
  filetype_exclusions : List String
deriving DecidableEq

/-- Source: `self.enable_folder_exclusions = True if len(self.folder_exclusions) > 0 else False` -/
def Config.enable_folder_exclusions (c : Config) : Bool :=
  c.folder_exclusions.length > 0

/-- Source: `self.enable_filename_exclusions = True if len(self.filename_exclusions) > 0 else False` -/
def Config.enable_filename_exclusions (c : Config) : Bool :=
  c.filename_exclusions.length > 0

/-- Source: `self.enable_filetype_exclusions = True if len(self.filetype_exclusions) > 0 else False` -/
def Config.enable_filetype_exclusions (c : Config) : Bool :=
  c.filetype_exclusions.length > 0

/-- A raw JSON configuration: each key may be absent. -/
structure RawConfig where
  backup_src : Option String
  backup_dest : Option String
  folder_exclusions : Option (List String)
  filename_exclusions : Option (List String)
  filetype_exclusions : Option (List String)
deriving DecidableEq

/-- Embeds `BackupManager.validate_config`: reads the five keys in order inside one
`try` block; the first missing key raises `KeyError` and the process exits
(modelled as `Except.error` naming the missing key). -/
def validate_config (c : RawConfig) : Except String Config :=
  match c.backup_src with
  | none => .error "backup-src"
  | some s =>
    match c.backup_dest with
    | none => .error "backup-dest"
    | some d =>
      match c.folder_exclusions with
      | none => .error "folder-exclusions"
      | some fo =>
        match c.filename_exclusions with
        | none => .error "filename-exclusions"
        | some fn =>
          match c.filetype_exclusions with
          | none => .error "filetype-exclusions"
          | some ft => .ok ⟨s, d, fo, fn, ft⟩

/-- The per-file inclusion decision of `build_backup_src_paths`:
`inclusion_criteria` accumulates 1 for the filename filter and 2 for the
filetype filter when enabled; `checks_passed` accumulates the same codes
for each passing check; the file is included when the two are equal. -/
def includes (cfg : Config) (base ext : String) : Bool :=
  let inclusion_criteria : Nat :=
    (if cfg.enable_filename_exclusions then 1 else 0) +
    (if cfg.enable_filetype_exclusions then 2 else 0)
  let checks_passed : Nat :=
    (if cfg.enable_filename_exclusions then
       (if cfg.filename_exclusions.contains base then 0 else 1) else 0) +
    (if cfg.enable_filetype_exclusions then
       (if cfg.filetype_exclusions.contains ext then 0 else 2) else 0)
  checks_passed == inclusion_criteria

/-- A source directory tree: named subdirectories and the files of the
directory, as enumerated by `os.walk`. -/
inductive SrcTree where
  | node : List (String × SrcTree) → List FileEntry → SrcTree

mutual
/-- Embeds `BackupManager.build_backup_src_paths`: walks the source tree top-down;
when folder exclusions are enabled the excluded subdirectory names are
pruned before descending (`subdirs[:] = [d for d in subdirs if d not in
self.folder_exclusions]`), so excluded subtrees are never read; files that
meet the inclusion criteria are collected with their relative path. -/
def build_backup_src_paths (cfg : Config) : SrcTree → List (Path × FileEntry)
  | .node dirs files =>
    ((files.filter fun f => includes cfg f.base f.ext).map
      fun f => (([] : Path), f)) ++
    walk_subdirs cfg dirs

/-- Traversal of the pruned subdirectory list for `build_backup_src_paths`. -/
def walk_subdirs (cfg : Config) : List (String × SrcTree) → List (Path × FileEntry)
  | [] => []
  | (name, t) :: rest =>
    (if cfg.enable_folder_exclusions && cfg.folder_exclusions.contains name then []
     else (build_backup_src_paths cfg t).map fun pf => (name :: pf.1, pf.2)) ++
    walk_subdirs cfg rest
end

/-- Embeds `BackupManager.build_backup_dest_paths`: switches the parent dir from
`backup_src` to `backup_dest`; at the relative-path level a scanned item
`(dir, file)` maps to the destination path `dir ++ [base ++ ext]`. -/
def destPath (item : Path × FileEntry) : Path :=
  item.1 ++ [item.2.base ++ item.2.ext]

/-- Embeds `BackupManager.build_backup_dest_paths` over a whole scan result. -/
def build_backup_dest_paths (src_paths : List (Path × FileEntry)) : List Path :=
  src_paths.map destPath

/-- The destination tree: an association list of file paths to file data
(lookup takes the first binding) and the set of existing directories. -/
structure DestFS where
  files : List (Path × FileData)
  dirs : List Path
deriving DecidableEq

/-- Models `os.path.exists` on a file path / `os.path.getmtime` source:
first binding for the path, if any. -/
def DestFS.getFile (fs : DestFS) (p : Path) : Option FileData :=
  (fs.files.find? fun e => e.1 == p).map (·.2)

/-- Models `os.path.exists(os.path.dirname(full_path))`: the parent directory exists. -/
def DestFS.dirExists (fs : DestFS) (p : Path) : Bool :=
  fs.dirs.contains p

/-- Models `shutil.copy2(src, dst)`: writes the source file's content and
metadata (modification time) at the destination path, overwriting any
previous binding. -/
def DestFS.writeFile (fs : DestFS) (p : Path) (d : FileData) : DestFS :=
  { fs with files := (p, d) :: fs.files }

/-- Models `os.makedirs(path)`: creates the directory and all intermediate
directories (every prefix of the path). -/
def DestFS.makedirs (fs : DestFS) (p : Path) : DestFS :=
  { fs with dirs := p.inits ++ fs.dirs }

/-- Tests that `p` is an initial segment of `q` (used to model `shutil.rmtree` and
directory renames removing or moving everything under a directory). -/
def pathUnder : Path → Path → Bool
  | [], _ => true
  | _ :: _, [] => false
  | a :: as, b :: bs => a == b && pathUnder as bs

/-- Models `shutil.rmtree(path, False)`: removes the directory and everything
beneath it. -/
def DestFS.rmtree (fs : DestFS) (p : Path) : DestFS :=
  { files := fs.files.filter fun e => !(pathUnder p e.1),
    dirs := fs.dirs.filter fun d => !(pathUnder p d) }

/-- Models `os.remove(path)`: removes the file bindings at the path. -/
def DestFS.removeFile (fs : DestFS) (p : Path) : DestFS :=
  { fs with files := fs.files.filter fun e => e.1 != p }

/-- The body of the loop in `BackupManager.backup_all_files`
(lines 220-246) for one scanned item: if the destination parent directory
exists and the destination file exists, copy only when the destination
modification time is strictly less than the source one; if the parent
exists but the file does not, copy; otherwise create the directories and
copy. Returns the updated filesystem and the paths appended to
`files_backed_up` by this iteration. -/
def backupStep (fs : DestFS) (item : Path × FileEntry) : DestFS × List Path :=
  let full_path := destPath item
  if fs.dirExists item.1 then
    match fs.getFile full_path with
    | some dest_file =>
      if dest_file.mtime < item.2.data.mtime then
        (fs.writeFile full_path item.2.data, [full_path])
      else
        (fs, [])
    | none => (fs.writeFile full_path item.2.data, [full_path])
  else
    ((fs.makedirs item.1).writeFile full_path item.2.data, [full_path])

/-- The `for i, full_path in enumerate(dest_paths)` loop of
`backup_all_files`: each iteration first computes
`percent_complete = int((i / len(src_paths)) * 100)`, which raises
`ZeroDivisionError` when `len(src_paths) == 0` (modelled as
`Except.error`; the division only happens inside the loop body), then
performs `backupStep`. Returns the copied paths and the final
filesystem. -/
def backupLoop (srcLen : Nat) : List (Path × FileEntry) → DestFS →
    Except String (List Path × DestFS)
  | [], fs => .ok ([], fs)
  | item :: rest, fs =>
    if srcLen = 0 then .error "ZeroDivisionError"
    else
      let r := backupStep fs item
      match backupLoop srcLen rest r.1 with
      | .ok (copied, fsFinal) => .ok (r.2 ++ copied, fsFinal)
      | .error e => .error e

/-- Embeds `BackupManager.backup_all_files`: scans the source tree, then runs the
copy loop over the scanned paths, returning `files_backed_up`. -/
def backup_all_files (cfg : Config) (src : SrcTree) (fs : DestFS) :
    Except String (List Path × DestFS) :=
  let src_paths := build_backup_src_paths cfg src
  backupLoop src_paths.length src_paths fs

/-- Embeds `BackupManager.file_on_created`, file branch: the handler logs, checks
whether the string `node_modules` occurs in the path — but that check only
logs `excluded by filter` and does not return — then computes the
destination path and, since the event source is a file,
`shutil.copy2(event.src_path, dest_path)` unconditionally. No
configuration exclusion list is consulted. -/
def file_on_created (fs : DestFS) (relDir : Path) (f : FileEntry) : DestFS :=
  fs.writeFile (relDir ++ [f.base ++ f.ext]) f.data

/-- Embeds `BackupManager.file_on_modified`, file branch: like `file_on_created`,
the `node_modules` check only logs; since `os.path.isfile(event.src_path)`
holds for a file event, `shutil.copy2` runs unconditionally. -/
def file_on_modified (fs : DestFS) (relDir : Path) (f : FileEntry) : DestFS :=
  fs.writeFile (relDir ++ [f.base ++ f.ext]) f.data

/-- Embeds `BackupManager.delete_item`: if the path is a directory, `shutil.rmtree`;
otherwise `os.remove`, which raises `OSError` when the path does not
exist — the handler catches it and returns `False`. Returns the success
flag and the resulting filesystem. -/
def delete_item (fs : DestFS) (p : Path) : Bool × DestFS :=
  if fs.dirs.contains p then
    (true, fs.rmtree p)
  else
    match fs.getFile p with
    | some _ => (true, fs.removeFile p)
    | none => (false, fs)

/-- Embeds `BackupManager.file_on_deleted`: maps the event path to the backup and
calls `delete_item`; when `delete_item` returns `False` the handler logs at
error level (`Unable to delete ...`). Returns the filesystem and whether an
error was logged. -/
def file_on_deleted (fs : DestFS) (relPath : Path) : DestFS × Bool :=
  let r := delete_item fs relPath
  (r.2, !r.1)

/-- Models `os.rename(src, dst)`: renames a directory (moving everything under
it) or a file; raises `FileNotFoundError` when the source path does not
exist (modelled as `Except.error ()`). -/
def os_rename (fs : DestFS) (old new : Path) : Except Unit DestFS :=
  if fs.dirs.contains old then
    .ok { files := fs.files.map fun e =>
            if pathUnder old e.1 then (new ++ e.1.drop old.length, e.2) else e,
          dirs := fs.dirs.map fun d =>
            if pathUnder old d then new ++ d.drop old.length else d }
  else
    match fs.getFile old with
    | some d => .ok ((fs.removeFile old).writeFile new d)
    | none => .error ()

/-- Embeds `BackupManager.file_on_moved`: the `node_modules` check only logs; the
handler maps both event paths to the backup tree and calls
`os.rename(dest_orig_path, dest_rename)` unconditionally — there is no
fallback when the old destination path is absent. -/
def file_on_moved (fs : DestFS) (oldRel newRel : Path) : Except Unit DestFS :=
  os_rename fs oldRel newRel

/-- Lookup of a file in the result of a fallible mirror operation. -/
def resultGetFile (r : Except Unit DestFS) (p : Path) : Option FileData :=
  match r with
  | .ok fs => fs.getFile p
  | .error _ => none

/-- Invariant established by a reconciliation pass for one scanned item:
the destination parent directory exists and the destination file carries a
modification time at least that of the source file. -/
def synced (fs : DestFS) (item : Path × FileEntry) : Prop :=
  fs.dirExists item.1 = true ∧
  ∃ d, fs.getFile (destPath item) = some d ∧ item.2.data.mtime ≤ d.mtime

/-! ## Helper lemmas about the destination filesystem primitives -/

theorem getFile_writeFile_self (fs : DestFS) (p : Path) (d : FileData) :
    (fs.writeFile p d).getFile p = some d := by
  simp [DestFS.getFile, DestFS.writeFile, List.find?]

theorem getFile_writeFile_ne (fs : DestFS) {p q : Path} (d : FileData) (h : q ≠ p) :
    (fs.writeFile p d).getFile q = fs.getFile q := by
  simp only [DestFS.getFile, DestFS.writeFile]
  rw [List.find?_cons_of_neg]
  simp
  exact fun hc => h hc.symm

theorem getFile_makedirs (fs : DestFS) (p q : Path) :
    (fs.makedirs p).getFile q = fs.getFile q := rfl

theorem dirs_writeFile (fs : DestFS) (p : Path) (d : FileData) :
    (fs.writeFile p d).dirs = fs.dirs := rfl

theorem dirExists_makedirs_self (fs : DestFS) (p : Path) :
    (fs.makedirs p).dirExists p = true := by
  simp [DestFS.dirExists, DestFS.makedirs, List.mem_inits]

theorem dirExists_makedirs_mono (fs : DestFS) (p : Path) {q : Path}
    (h : fs.dirExists q = true) : (fs.makedirs p).dirExists q = true := by
  simp [DestFS.dirExists, DestFS.makedirs] at h ⊢
  exact Or.inr h

theorem append_singleton_inj {α : Type} {l1 l2 : List α} {a b : α}
    (h : l1 ++ [a] = l2 ++ [b]) : l1 = l2 ∧ a = b := by
  have hlen : l1.length = l2.length := by
    have := congrArg List.length h
    simp at this
    omega
  have := List.append_inj h hlen
  exact ⟨this.1, by simpa using this.2⟩

/-! ## C5 -/

/-- C5: the scan's per-file inclusion decision (`includes`, encoded in the
source with the `inclusion_criteria`/`checks_passed` codes) equals the
reference predicate `nameOK AND typeOK`; an empty exclusion set disables
that filter dimension entirely. -/
theorem includes_eq_nameOK_and_typeOK (cfg : Config) (base ext : String) :
    includes cfg base ext =
      ((cfg.filename_exclusions.isEmpty || !cfg.filename_exclusions.contains base) &&
       (cfg.filetype_exclusions.isEmpty || !cfg.filetype_exclusions.contains ext)) := by
  rcases cfg with ⟨s, dst, fo, fn, ft⟩
  simp only [includes, Config.enable_filename_exclusions, Config.enable_filetype_exclusions]
  cases fn with
  | nil =>
    cases ft with
    | nil => simp
    | cons b bs =>
      simp only [List.length_nil, List.length_cons, List.isEmpty_nil, List.isEmpty_cons]
      cases hc : (b :: bs).contains ext <;> simp [hc]
  | cons a as =>
    cases ft with
    | nil =>
      simp only [List.length_nil, List.length_cons, List.isEmpty_nil, List.isEmpty_cons]
      cases hc : (a :: as).contains base <;> simp [hc]
    | cons b bs =>
      simp only [List.length_nil, List.length_cons, List.isEmpty_nil, List.isEmpty_cons]
      cases hc1 : (a :: as).contains base <;> cases hc2 : (b :: bs).contains ext <;>
        simp [hc1, hc2]

/-! ## C9 -/

/-- C9 counterexample: a configuration that has `backup-src` and
`backup-dest` but lacks `folder-exclusions` is rejected by
`validate_config` (the claim states it is accepted with the missing array
defaulting to empty). -/
theorem validate_config_rejects_missing_exclusions :
    (RawConfig.mk (some "/A") (some "/B") none (some []) (some [])).backup_src.isSome
        = true ∧
    (RawConfig.mk (some "/A") (some "/B") none (some []) (some [])).backup_dest.isSome
        = true ∧
    validate_config (RawConfig.mk (some "/A") (some "/B") none (some []) (some []))
        = .error "folder-exclusions" :=
  ⟨rfl, rfl, rfl⟩

/-- C9 amended: engine construction succeeds if and only if all five
configuration keys are present — missing exclusion arrays are fatal too,
there is no defaulting. -/
theorem validate_config_ok_iff_all_keys (c : RawConfig) :
    (∃ cfg, validate_config c = .ok cfg) ↔
      (c.backup_src.isSome = true ∧ c.backup_dest.isSome = true ∧
       c.folder_exclusions.isSome = true ∧ c.filename_exclusions.isSome = true ∧
       c.filetype_exclusions.isSome = true) := by
  rcases c with ⟨s, d, fo, fn, ft⟩
  cases s <;> cases d <;> cases fo <;> cases fn <;> cases ft <;>
    simp [validate_config]

/-! ## C10 -/

/-- C10: when the scan yields no in-scope files, the full backup pass
terminates normally with an empty copied-paths list; the per-iteration
progress division by `len(src_paths)` is never evaluated, so no
`ZeroDivisionError` occurs. -/
theorem backup_all_files_empty_scan (cfg : Config) (src : SrcTree) (fs : DestFS)
    (h : build_backup_src_paths cfg src = []) :
    backup_all_files cfg src fs = .ok ([], fs) := by
  unfold backup_all_files
  rw [h]
  rfl

/-- C10 witness: an empty source tree scans to no files and the pass
returns an empty list without error. -/
theorem backup_all_files_empty_scan_witness :
    backup_all_files ⟨"/A", "/B", [], [], []⟩ (.node [] []) ⟨[], []⟩
      = .ok ([], ⟨[], []⟩) :=
  backup_all_files_empty_scan ⟨"/A", "/B", [], [], []⟩ (.node [] []) ⟨[], []⟩ rfl

/-! ## C1 -/

/-- C1: the claim fails on the code — `includes` rejects the file `a.log`
under a config whose filetype exclusions contain `.log`, and
`build_backup_src_paths`/`backup_all_files` indeed never copy it, but the
live `file_on_created` and `file_on_modified` handlers copy it to the
destination anyway (they consult no exclusion list; the `node_modules`
check in the source only logs and does not return). -/
theorem live_handlers_copy_excluded_file :
    includes ⟨"/A", "/B", [], [], [".log"]⟩ "a" ".log" = false ∧
    backup_all_files ⟨"/A", "/B", [], [], [".log"]⟩
        (.node [] [⟨"a", ".log", ⟨5, 7⟩⟩]) ⟨[], [[]]⟩ = .ok ([], ⟨[], [[]]⟩) ∧
    (file_on_created ⟨[], [[]]⟩ [] ⟨"a", ".log", ⟨5, 7⟩⟩).getFile ["a.log"]
        = some ⟨5, 7⟩ ∧
    (file_on_modified ⟨[], [[]]⟩ [] ⟨"a", ".log", ⟨5, 7⟩⟩).getFile ["a.log"]
        = some ⟨5, 7⟩ := by
  refine ⟨rfl, rfl, ?_, ?_⟩ <;> decide

/-! ## C7 -/

/-- C7 counterexample: deleting a destination path that does not exist is
not treated as success — `delete_item` returns `False` (the caught
`OSError` path) and `file_on_deleted` logs at error level (`Unable to
delete ...`), contradicting the claim that no error is surfaced. -/
theorem deleted_event_missing_target_reports_error :
    delete_item ⟨[], []⟩ ["x.txt"] = (false, ⟨[], []⟩) ∧
    (file_on_deleted ⟨[], []⟩ ["x.txt"]).2 = true := by
  exact ⟨rfl, rfl⟩

/-- C7 amended: handling a Deleted event whose mapped destination path
does not exist completes without an unhandled exception and leaves the
mirror unchanged, but it is reported as a failure: `delete_item` returns
`False` and the handler logs an error rather than treating the missing
target as success. -/
theorem deleted_event_missing_target_noop (fs : DestFS) (p : Path)
    (h1 : fs.dirs.contains p = false) (h2 : fs.getFile p = none) :
    delete_item fs p = (false, fs) ∧ file_on_deleted fs p = (fs, true) := by
  have hd : delete_item fs p = (false, fs) := by
    unfold delete_item
    rw [h1]
    simp [h2]
  exact ⟨hd, by simp [file_on_deleted, hd]⟩

/-- C7 amended witness: a concrete mirror holding one unrelated file. -/
theorem deleted_event_missing_target_noop_witness :
    delete_item ⟨[(["keep"], ⟨1, 2⟩)], [[]]⟩ ["x.txt"] = (false, ⟨[(["keep"], ⟨1, 2⟩)], [[]]⟩) ∧
    file_on_deleted ⟨[(["keep"], ⟨1, 2⟩)], [[]]⟩ ["x.txt"] = (⟨[(["keep"], ⟨1, 2⟩)], [[]]⟩, true) :=
  deleted_event_missing_target_noop ⟨[(["keep"], ⟨1, 2⟩)], [[]]⟩ ["x.txt"]
    (by decide) (by decide)

theorem find?_filter_ne_none (l : List (Path × FileData)) (p : Path) :
    (l.filter fun e => e.1 != p).find? (fun e => e.1 == p) = none := by
  induction l with
  | nil => rfl
  | cons e rest ih =>
    by_cases he : e.1 = p
    · simp only [List.filter_cons, he, bne_self_eq_false]
      exact ih
    · rw [List.filter_cons_of_pos (by simpa using he)]
      rw [List.find?_cons_of_neg _ (by simpa using he)]
      exact ih

theorem find?_filter_ne_other (l : List (Path × FileData)) {p q : Path} (h : q ≠ p) :
    (l.filter fun e => e.1 != p).find? (fun e => e.1 == q) =
      l.find? (fun e => e.1 == q) := by
  induction l with
  | nil => rfl
  | cons e rest ih =>
    by_cases he : e.1 = p
    · rw [List.filter_cons_of_neg (by simp [he])]
      rw [List.find?_cons_of_neg _ (by simp [he]; exact fun hq => h hq.symm)]
      exact ih
    · rw [List.filter_cons_of_pos (by simpa using he)]
      by_cases heq : e.1 = q
      · rw [List.find?_cons_of_pos _ (by simpa using heq),
            List.find?_cons_of_pos _ (by simpa using heq)]
      · rw [List.find?_cons_of_neg _ (by simpa using heq),
            List.find?_cons_of_neg _ (by simpa using heq)]
        exact ih

theorem getFile_removeFile_self (fs : DestFS) (p : Path) :
    (fs.removeFile p).getFile p = none := by
  simp only [DestFS.getFile, DestFS.removeFile]
  rw [find?_filter_ne_none]
  rfl

theorem getFile_removeFile_other (fs : DestFS) {p q : Path} (h : q ≠ p) :
    (fs.removeFile p).getFile q = fs.getFile q := by
  simp only [DestFS.getFile, DestFS.removeFile]
  rw [find?_filter_ne_other _ h]

/-! ## C8 -/

/-- C8 counterexample: a Renamed event whose old destination path is
absent does not degrade to a copy — `os.rename` raises
`FileNotFoundError` (modelled as `.error ()`) and the new destination
path is not created. -/
theorem moved_event_missing_old_raises :
    file_on_moved ⟨[], []⟩ ["old.txt"] ["new.txt"] = .error () ∧
    resultGetFile (file_on_moved ⟨[], []⟩ ["old.txt"] ["new.txt"]) ["new.txt"] = none :=
  ⟨rfl, rfl⟩

/-- C8 amended: when the old destination path exists as a file it is
renamed to the new destination path; when the old destination path is
absent, `file_on_moved` raises (`os.rename` propagates
`FileNotFoundError`) and performs no copy of the new path. -/
theorem moved_event_behavior (fs : DestFS) (oldP newP : Path) :
    (∀ d, fs.dirs.contains oldP = false → fs.getFile oldP = some d →
      resultGetFile (file_on_moved fs oldP newP) newP = some d ∧
      (oldP ≠ newP → resultGetFile (file_on_moved fs oldP newP) oldP = none)) ∧
    (fs.dirs.contains oldP = false → fs.getFile oldP = none →
      file_on_moved fs oldP newP = .error ()) := by
  constructor
  · intro d h1 h2
    unfold file_on_moved os_rename
    rw [h1, h2]
    simp only [Bool.false_eq_true, if_false, resultGetFile]
    constructor
    · exact getFile_writeFile_self _ _ _
    · intro hne
      rw [getFile_writeFile_ne _ _ hne]
      exact getFile_removeFile_self _ _
  · intro h1 h2
    unfold file_on_moved os_rename
    rw [h1, h2]
    simp

/-- C8 amended witness: renaming an existing mirrored file moves it;
renaming with an absent old path errors. -/
theorem moved_event_behavior_witness :
    resultGetFile (file_on_moved ⟨[(["o"], ⟨3, 4⟩)], []⟩ ["o"] ["n"]) ["n"] = some ⟨3, 4⟩ ∧
    resultGetFile (file_on_moved ⟨[(["o"], ⟨3, 4⟩)], []⟩ ["o"] ["n"]) ["o"] = none ∧
    file_on_moved ⟨[], []⟩ ["o2"] ["n2"] = .error () :=
  ⟨((moved_event_behavior ⟨[(["o"], ⟨3, 4⟩)], []⟩ ["o"] ["n"]).1 ⟨3, 4⟩ rfl rfl).1,
   ((moved_event_behavior ⟨[(["o"], ⟨3, 4⟩)], []⟩ ["o"] ["n"]).1 ⟨3, 4⟩ rfl rfl).2
     (by decide),
   (moved_event_behavior ⟨[], []⟩ ["o2"] ["n2"]).2 rfl rfl⟩

/-! ## C2 -/

/-- C2: during a full pass, for an in-scope item whose destination parent
and destination file both exist, the step copies (appends the destination
path to the copied list) iff the source modification time is strictly
greater than the destination one; otherwise the filesystem is left
completely unchanged and nothing is recorded. -/
theorem reconcile_copy_iff_src_newer (fs : DestFS) (item : Path × FileEntry)
    (d : FileData) (h1 : fs.dirExists item.1 = true)
    (h2 : fs.getFile (destPath item) = some d) :
    ((backupStep fs item).2 = [destPath item] ↔ d.mtime < item.2.data.mtime) ∧
    (¬ d.mtime < item.2.data.mtime → backupStep fs item = (fs, [])) := by
  simp only [backupStep, h1, if_true, h2]
  by_cases hm : d.mtime < item.2.data.mtime <;> simp [hm]

/-- C2 witness: destination file with mtime 1, source file with mtime 5 —
the copy is performed exactly because 1 < 5. -/
theorem reconcile_copy_iff_src_newer_witness :
    ((backupStep ⟨[(["a.t"], ⟨1, 0⟩)], [[]]⟩ ([], ⟨"a", ".t", ⟨5, 9⟩⟩)).2 = [["a.t"]]
        ↔ (1 : Nat) < 5) ∧
    (¬ (1 : Nat) < 5 →
      backupStep ⟨[(["a.t"], ⟨1, 0⟩)], [[]]⟩ ([], ⟨"a", ".t", ⟨5, 9⟩⟩)
        = (⟨[(["a.t"], ⟨1, 0⟩)], [[]]⟩, [])) :=
  reconcile_copy_iff_src_newer ⟨[(["a.t"], ⟨1, 0⟩)], [[]]⟩ ([], ⟨"a", ".t", ⟨5, 9⟩⟩)
    ⟨1, 0⟩ (by decide) (by decide)

/-! ## Frame and invariant lemmas about one reconciliation step -/

theorem backupStep_getFile_ne (fs : DestFS) (item : Path × FileEntry) {q : Path}
    (h : q ≠ destPath item) :
    ((backupStep fs item).1).getFile q = fs.getFile q := by
  simp only [backupStep]
  cases hd : fs.dirExists item.1 with
  | true =>
    simp only [if_true]
    cases hf : fs.getFile (destPath item) with
    | some d =>
      by_cases hm : d.mtime < item.2.data.mtime <;>
        simp [hm, getFile_writeFile_ne _ _ h]
    | none => simp [getFile_writeFile_ne _ _ h]
  | false =>
    simp only [Bool.false_eq_true, if_false]
    rw [getFile_writeFile_ne _ _ h, getFile_makedirs]

theorem backupStep_dirs_mono (fs : DestFS) (item : Path × FileEntry) {dq : Path}
    (h : fs.dirs.contains dq = true) :
    ((backupStep fs item).1).dirs.contains dq = true := by
  have hmem : dq ∈ fs.dirs := by simpa using h
  simp only [backupStep]
  cases hd : fs.dirExists item.1 with
  | true =>
    simp only [if_true]
    cases hf : fs.getFile (destPath item) with
    | some d =>
      by_cases hm : d.mtime < item.2.data.mtime <;> simp [hm, DestFS.writeFile, hmem]
    | none => simp [DestFS.writeFile, hmem]
  | false =>
    simp only [Bool.false_eq_true, if_false]
    simp only [DestFS.writeFile, DestFS.makedirs]
    simp at h ⊢
    exact Or.inr h

theorem backupStep_getFile_some (fs : DestFS) (item : Path × FileEntry) {q : Path}
    {d0 : FileData} (h : fs.getFile q = some d0) :
    ∃ d1, ((backupStep fs item).1).getFile q = some d1 := by
  by_cases hq : q = destPath item
  · subst hq
    simp only [backupStep]
    cases hd : fs.dirExists item.1 with
    | true =>
      simp only [if_true]
      cases hf : fs.getFile (destPath item) with
      | some d =>
        by_cases hm : d.mtime < item.2.data.mtime
        · exact ⟨item.2.data, by simp [hm, getFile_writeFile_self]⟩
        · exact ⟨d0, by simp [hm, h]⟩
      | none => exact ⟨item.2.data, by simp [getFile_writeFile_self]⟩
    | false =>
      simp only [Bool.false_eq_true, if_false]
      exact ⟨item.2.data, getFile_writeFile_self _ _ _⟩
  · exact ⟨d0, by rw [backupStep_getFile_ne _ _ hq]; exact h⟩

/-! ## Inversion lemmas for the copy loop -/

theorem backupLoop_nil_ok {n : Nat} {fs : DestFS} {out : List Path} {fs1 : DestFS}
    (h : backupLoop n [] fs = .ok (out, fs1)) : out = [] ∧ fs1 = fs := by
  simp only [backupLoop] at h
  injection h with h
  injection h with h1 h2
  exact ⟨h1.symm, h2.symm⟩

theorem backupLoop_cons_ok {n : Nat} {item : Path × FileEntry}
    {rest : List (Path × FileEntry)} {fs : DestFS} {out : List Path} {fs1 : DestFS}
    (h : backupLoop n (item :: rest) fs = .ok (out, fs1)) :
    ∃ copied, backupLoop n rest (backupStep fs item).1 = .ok (copied, fs1) ∧
      out = (backupStep fs item).2 ++ copied := by
  simp only [backupLoop] at h
  by_cases hn : n = 0
  · simp [hn] at h
  · rw [if_neg hn] at h
    cases hrec : backupLoop n rest (backupStep fs item).1 with
    | error e => rw [hrec] at h; simp at h
    | ok pr =>
      rw [hrec] at h
      obtain ⟨copied, fs2⟩ := pr
      simp only [Except.ok.injEq, Prod.mk.injEq] at h
      exact ⟨copied, by rw [h.2], h.1.symm⟩

theorem backupLoop_getFile_frame {n : Nat} (l : List (Path × FileEntry)) :
    ∀ {fs out fs1}, backupLoop n l fs = .ok (out, fs1) →
      ∀ q, q ∉ l.map destPath → fs1.getFile q = fs.getFile q := by
  induction l with
  | nil =>
    intro fs out fs1 h q _
    rw [(backupLoop_nil_ok h).2]
  | cons item rest ih =>
    intro fs out fs1 h q hq
    obtain ⟨copied, hrec, _⟩ := backupLoop_cons_ok h
    simp only [List.map_cons, List.mem_cons, not_or] at hq
    rw [ih hrec q hq.2]
    exact backupStep_getFile_ne _ _ hq.1

theorem backupLoop_dirs_mono {n : Nat} (l : List (Path × FileEntry)) :
    ∀ {fs out fs1}, backupLoop n l fs = .ok (out, fs1) →
      ∀ dq, fs.dirs.contains dq = true → fs1.dirs.contains dq = true := by
  induction l with
  | nil =>
    intro fs out fs1 h dq hdq
    rw [(backupLoop_nil_ok h).2]
    exact hdq
  | cons item rest ih =>
    intro fs out fs1 h dq hdq
    obtain ⟨copied, hrec, _⟩ := backupLoop_cons_ok h
    exact ih hrec dq (backupStep_dirs_mono _ _ hdq)

theorem backupLoop_getFile_some {n : Nat} (l : List (Path × FileEntry)) :
    ∀ {fs out fs1}, backupLoop n l fs = .ok (out, fs1) →
      ∀ q d0, fs.getFile q = some d0 → ∃ d1, fs1.getFile q = some d1 := by
  induction l with
  | nil =>
    intro fs out fs1 h q d0 hq
    rw [(backupLoop_nil_ok h).2]
    exact ⟨d0, hq⟩
  | cons item rest ih =>
    intro fs out fs1 h q d0 hq
    obtain ⟨copied, hrec, _⟩ := backupLoop_cons_ok h
    obtain ⟨d1, hd1⟩ := backupStep_getFile_some fs item hq
    exact ih hrec q d1 hd1

/-! ## C6 -/

/-- C6: a full reconciliation pass never deletes or renames destination
entries — any destination file whose path is not among the mapped
destination paths of the scan is unchanged, every pre-existing destination
file is still present, and every pre-existing directory still exists. -/
theorem full_sync_additive (cfg : Config) (src : SrcTree) (fs : DestFS)
    (out : List Path) (fs1 : DestFS)
    (h : backup_all_files cfg src fs = .ok (out, fs1)) :
    (∀ q, q ∉ build_backup_dest_paths (build_backup_src_paths cfg src) →
      fs1.getFile q = fs.getFile q) ∧
    (∀ q d0, fs.getFile q = some d0 → ∃ d1, fs1.getFile q = some d1) ∧
    (∀ dq, fs.dirs.contains dq = true → fs1.dirs.contains dq = true) := by
  unfold backup_all_files at h
  exact ⟨fun q hq => backupLoop_getFile_frame _ h q hq,
         fun q d0 hq => backupLoop_getFile_some _ h q d0 hq,
         fun dq hdq => backupLoop_dirs_mono _ h dq hdq⟩

/-- C6 witness: a destination holding an unrelated file `keep` and the
directory `old` survives a pass that copies one new file. -/
theorem full_sync_additive_witness :
    (DestFS.mk [(["a.t"], ⟨5, 7⟩), (["keep"], ⟨9, 9⟩)] [[], ["old"]]).getFile ["keep"]
        = some ⟨9, 9⟩ ∧
    (DestFS.mk [(["a.t"], ⟨5, 7⟩), (["keep"], ⟨9, 9⟩)] [[], ["old"]]).dirs.contains
        ["old"] = true := by
  have hframe := full_sync_additive ⟨"/A", "/B", [], [], []⟩
    (.node [] [⟨"a", ".t", ⟨5, 7⟩⟩]) ⟨[(["keep"], ⟨9, 9⟩)], [["old"]]⟩ [["a.t"]]
    (DestFS.mk [(["a.t"], ⟨5, 7⟩), (["keep"], ⟨9, 9⟩)] [[], ["old"]]) rfl
  refine ⟨?_, hframe.2.2 ["old"] rfl⟩
  rw [hframe.1 ["keep"] (by decide)]
  rfl

/-! ## The pass invariant for C3 -/

theorem synced_backupStep_self (fs : DestFS) (item : Path × FileEntry) :
    synced (backupStep fs item).1 item := by
  simp only [synced, backupStep]
  cases hd : fs.dirExists item.1 with
  | true =>
    simp only [if_true]
    cases hf : fs.getFile (destPath item) with
    | some d =>
      by_cases hm : d.mtime < item.2.data.mtime
      · simp only [hm, if_true]
        refine ⟨?_, item.2.data, getFile_writeFile_self _ _ _, le_refl _⟩
        simpa [DestFS.dirExists, DestFS.writeFile] using hd
      · simp only [hm, if_false]
        exact ⟨hd, d, hf, Nat.le_of_not_lt hm⟩
    | none =>
      refine ⟨?_, item.2.data, getFile_writeFile_self _ _ _, le_refl _⟩
      simpa [DestFS.dirExists, DestFS.writeFile] using hd
  | false =>
    simp only [Bool.false_eq_true, if_false]
    refine ⟨?_, item.2.data, getFile_writeFile_self _ _ _, le_refl _⟩
    exact dirExists_makedirs_self fs item.1

theorem synced_backupStep_preserved (fs : DestFS) (i j : Path × FileEntry)
    (h : synced fs j) : synced (backupStep fs i).1 j := by
  obtain ⟨hdir, d, hget, hle⟩ := h
  by_cases hq : destPath j = destPath i
  · have hsame : j.1 = i.1 := by
      unfold destPath at hq
      exact (append_singleton_inj hq).1
    have hdir_i : fs.dirExists i.1 = true := hsame ▸ hdir
    have hget_i : fs.getFile (destPath i) = some d := hq ▸ hget
    simp only [synced, backupStep, hdir_i, if_true, hget_i]
    by_cases hm : d.mtime < i.2.data.mtime
    · simp only [hm, if_true]
      refine ⟨?_, i.2.data, ?_, ?_⟩
      · simpa [DestFS.dirExists, DestFS.writeFile] using hdir
      · rw [hq]
        exact getFile_writeFile_self _ _ _
      · exact le_trans hle (Nat.le_of_lt hm)
    · simp only [hm, if_false]
      exact ⟨hdir, d, hget, hle⟩
  · refine ⟨?_, d, ?_, hle⟩
    · exact backupStep_dirs_mono fs i hdir
    · rw [backupStep_getFile_ne _ _ hq]
      exact hget

theorem backupLoop_synced_preserved {n : Nat} (l : List (Path × FileEntry)) :
    ∀ {fs out fs1} (j : Path × FileEntry), backupLoop n l fs = .ok (out, fs1) →
      synced fs j → synced fs1 j := by
  induction l with
  | nil =>
    intro fs out fs1 j h hs
    rw [(backupLoop_nil_ok h).2]
    exact hs
  | cons item rest ih =>
    intro fs out fs1 j h hs
    obtain ⟨copied, hrec, _⟩ := backupLoop_cons_ok h
    exact ih j hrec (synced_backupStep_preserved fs item j hs)

theorem backupLoop_synced_all {n : Nat} (l : List (Path × FileEntry)) :
    ∀ {fs out fs1}, backupLoop n l fs = .ok (out, fs1) →
      ∀ j ∈ l, synced fs1 j := by
  induction l with
  | nil =>
    intro fs out fs1 _ j hj
    simp at hj
  | cons item rest ih =>
    intro fs out fs1 h j hj
    obtain ⟨copied, hrec, _⟩ := backupLoop_cons_ok h
    rcases List.mem_cons.mp hj with rfl | hj2
    · exact backupLoop_synced_preserved rest j hrec (synced_backupStep_self fs j)
    · exact ih hrec j hj2

theorem backupLoop_noop {n : Nat} (l : List (Path × FileEntry))
    (hn : l ≠ [] → n ≠ 0) :
    ∀ fs, (∀ j ∈ l, synced fs j) → backupLoop n l fs = .ok ([], fs) := by
  induction l with
  | nil => intro fs _; rfl
  | cons item rest ih =>
    intro fs hall
    obtain ⟨hdir, d, hget, hle⟩ := hall item (List.mem_cons_self _ _)
    have hstep : backupStep fs item = (fs, []) := by
      simp only [backupStep, hdir, if_true, hget]
      rw [if_neg (Nat.not_lt.mpr hle)]
    simp only [backupLoop]
    rw [if_neg (hn (by simp)), hstep]
    rw [ih (fun _ => hn (by simp)) fs (fun j hj => hall j (List.mem_cons_of_mem _ hj))]
    rfl

/-! ## C3 -/

/-- C3: running the full reconciliation pass twice in succession with the
same source tree (and `copy2` preserving modification times) copies zero
files on the second run and leaves the destination exactly as the first
run left it. -/
theorem run_full_sync_idempotent (cfg : Config) (src : SrcTree) (fs : DestFS)
    (out : List Path) (fs1 : DestFS)
    (h : backup_all_files cfg src fs = .ok (out, fs1)) :
    backup_all_files cfg src fs1 = .ok ([], fs1) := by
  unfold backup_all_files at h ⊢
  have hall := backupLoop_synced_all (build_backup_src_paths cfg src) h
  exact backupLoop_noop _ (fun hne h0 => hne (List.length_eq_zero.mp h0)) fs1 hall

/-- C3 witness: after one pass copied `a.t`, an immediate second pass
copies nothing and leaves the mirror untouched. -/
theorem run_full_sync_idempotent_witness :
    backup_all_files ⟨"/A", "/B", [], [], []⟩ (.node [] [⟨"a", ".t", ⟨5, 7⟩⟩])
        ⟨[(["a.t"], ⟨5, 7⟩)], [[]]⟩
      = .ok ([], ⟨[(["a.t"], ⟨5, 7⟩)], [[]]⟩) :=
  run_full_sync_idempotent ⟨"/A", "/B", [], [], []⟩ (.node [] [⟨"a", ".t", ⟨5, 7⟩⟩])
    ⟨[], []⟩ [["a.t"]] ⟨[(["a.t"], ⟨5, 7⟩)], [[]]⟩ rfl

/-! ## C4 -/

mutual
theorem build_paths_no_excluded_component (cfg : Config)
    (h : cfg.enable_folder_exclusions = true) :
    (t : SrcTree) → ∀ pf ∈ build_backup_src_paths cfg t, ∀ x ∈ pf.1,
      cfg.folder_exclusions.contains x = false
  | .node dirs files => by
    intro pf hpf x hx
    simp only [build_backup_src_paths, List.mem_append] at hpf
    rcases hpf with hpf | hpf
    · simp only [List.mem_map] at hpf
      obtain ⟨f, _, rfl⟩ := hpf
      simp at hx
    · exact walk_subdirs_no_excluded_component cfg h dirs pf hpf x hx

theorem walk_subdirs_no_excluded_component (cfg : Config)
    (h : cfg.enable_folder_exclusions = true) :
    (l : List (String × SrcTree)) → ∀ pf ∈ walk_subdirs cfg l, ∀ x ∈ pf.1,
      cfg.folder_exclusions.contains x = false
  | [] => by
    intro pf hpf
    simp [walk_subdirs] at hpf
  | (name, t) :: rest => by
    intro pf hpf x hx
    simp only [walk_subdirs, List.mem_append] at hpf
    rcases hpf with hpf | hpf
    · cases hex : cfg.folder_exclusions.contains name with
      | true =>
        rw [h, hex] at hpf
        simp only [Bool.and_self, if_true] at hpf
        exact absurd hpf (List.not_mem_nil pf)
      | false =>
        rw [h, hex] at hpf
        simp only [Bool.and_false, Bool.false_eq_true, if_false, List.mem_map] at hpf
        obtain ⟨q, hq, rfl⟩ := hpf
        rcases List.mem_cons.mp hx with rfl | hx2
        · exact hex
        · exact build_paths_no_excluded_component cfg h t q hq x hx2
    · exact walk_subdirs_no_excluded_component cfg h rest pf hpf x hx
end

/-- C4: with a non-empty folder-exclusions set, the scan prunes excluded
directory names before descending, so no scanned path contains an
excluded folder name as a directory component. -/
theorem scan_has_no_excluded_folder_component (cfg : Config) (t : SrcTree)
    (h : cfg.enable_folder_exclusions = true) :
    ∀ pf ∈ build_backup_src_paths cfg t, ∀ x ∈ pf.1,
      cfg.folder_exclusions.contains x = false :=
  build_paths_no_excluded_component cfg h t

/-- C4 witness: with `node_modules` excluded, the surviving scanned entry
`sub/x.t` has no excluded component — in particular `sub` is not
excluded. -/
theorem scan_has_no_excluded_folder_component_witness :
    (Config.mk "/A" "/B" ["node_modules"] [] []).folder_exclusions.contains "sub"
      = false :=
  scan_has_no_excluded_folder_component ⟨"/A", "/B", ["node_modules"], [], []⟩
    (.node [("node_modules", .node [] [⟨"y", ".t", ⟨1, 0⟩⟩]),
            ("sub", .node [] [⟨"x", ".t", ⟨2, 0⟩⟩])] [])
    (by decide) (["sub"], ⟨"x", ".t", ⟨2, 0⟩⟩) (by decide) "sub" (by decide)

end BackupTool
